import Mathlib

/-!
# A verification development for the ZeekQuota usage-accrual script

This file gives a shallow embedding, in Lean 4, of the Python program
`ZeekQuota.py`: a script that attributes network-flow byte volumes from Zeek
log files to internal hosts, keeps a per-host cumulative ledger, persists it
as a CSV file, and resets it at calendar-month boundaries.

Modelling conventions:
* Python strings are `String` / `List Char`; byte counts and the CSV numeric
  field are `ℚ` (Python mixes `int` and `float`; the float layer is exact at
  the values exercised here, so rationals model it without a rounding story).
* `dict` is an insertion-ordered association list.
* Fallible Python code (uncaught exceptions) is `Except`.
* The filesystem is an association list from paths (`List Char`) to files;
  a file carries the month of its mtime and a typed payload.
-/

namespace ZeekQuota

/-! ## Python `ipaddress` string parsing

`ipaddress.ip_address(s)` for a `str` argument: try `IPv4Address(s)`, then
`IPv6Address(s)`, else raise `ValueError`.  The IPv4 parser accepts exactly
four '.'-separated decimal octets, ASCII digits only, no leading zeros,
value ≤ 255 — i.e. exactly the canonical textual form of each address. -/

def digit_val (c : Char) : Nat := c.toNat - 48

def is_digit_char (c : Char) : Bool :=
  decide (48 ≤ c.toNat) && decide (c.toNat ≤ 57)

/-- Model of `ipaddress._parse_octet`: ASCII digits, length ≤ 3, no leading zero,
value ≤ 255.  (The length patterns below enumerate lengths 1–3; anything
else — including the empty string — is rejected, as in the source.) -/
def parse_octet : List Char → Option Nat
  | [a] => if is_digit_char a then some (digit_val a) else none
  | [a, b] =>
    if is_digit_char a && is_digit_char b && decide (a ≠ '0') then
      some (10 * digit_val a + digit_val b)
    else none
  | [a, b, c] =>
    if is_digit_char a && is_digit_char b && is_digit_char c && decide (a ≠ '0')
        && decide (100 * digit_val a + 10 * digit_val b + digit_val c ≤ 255) then
      some (100 * digit_val a + 10 * digit_val b + digit_val c)
    else none
  | _ => none

/-- Python `str.split(sep)` on a single-character separator. -/
def split_sep (sep : Char) : List Char → List (List Char)
  | [] => [[]]
  | c :: cs =>
    let r := split_sep sep cs
    if c = sep then [] :: r
    else
      match r with
      | [] => [[c]]
      | p :: ps => (c :: p) :: ps

/-- Inverse of `split_sep`: interleave the separator back. -/
def join_sep (sep : Char) : List (List Char) → List Char
  | [] => []
  | [p] => p
  | p :: q :: ps => p ++ sep :: join_sep sep (q :: ps)

/-- Model of `ipaddress.IPv4Address._ip_int_from_string`: exactly four octets. -/
def parse_v4 (l : List Char) : Option (Nat × Nat × Nat × Nat) :=
  match split_sep '.' l with
  | [p1, p2, p3, p4] =>
    match parse_octet p1, parse_octet p2, parse_octet p3, parse_octet p4 with
    | some a, some b, some c, some d => some (a, b, c, d)
    | _, _, _, _ => none
  | _ => none

def is_hex_digit_char (c : Char) : Bool :=
  (decide (48 ≤ c.toNat) && decide (c.toNat ≤ 57)) ||
  (decide (97 ≤ c.toNat) && decide (c.toNat ≤ 102)) ||
  (decide (65 ≤ c.toNat) && decide (c.toNat ≤ 70))

/-- Model of `ipaddress._parse_hextet`: 1–4 hex digits. -/
def hextet_ok (p : List Char) : Bool :=
  decide (p ≠ []) && decide (p.length ≤ 4) && p.all is_hex_digit_char

/-- Model of `ipaddress.IPv6Address._ip_int_from_string`, positional analysis of the
':'-separated parts (after any embedded-IPv4 rewrite): at most one empty part
strictly inside, the `::` bookkeeping of `parts_hi`/`parts_lo`, at least one
zero group skipped, and every retained part a valid hextet.  This models only
validity; the 128-bit value is never needed because an IPv6 address is never
a member of an `IPv4Network`. -/
def v6_parts_valid (parts : List (List Char)) : Bool :=
  let n := parts.length
  if decide (n > 9) then false
  else
    let middle := (parts.drop 1).dropLast
    if decide (2 ≤ (middle.filter (fun p => p.isEmpty)).length) then false
    else
      match middle.findIdx? (fun p => p.isEmpty) with
      | some i0 =>
        let k := i0 + 1
        let head_empty := (parts.headD [' ']).isEmpty
        let last_empty := (parts.getLastD [' ']).isEmpty
        let hi_ok : Bool := if head_empty then decide (k = 1) else true
        let lo_ok : Bool := if last_empty then decide (k = n - 2) else true
        let parts_hi := if head_empty then 0 else k
        let parts_lo := if last_empty then 0 else n - k - 1
        hi_ok && lo_ok && decide (parts_hi + parts_lo ≤ 7)
          && (parts.take parts_hi).all hextet_ok
          && (parts.drop (n - parts_lo)).all hextet_ok
      | none =>
        decide (n = 8) && parts.all hextet_ok

/-- Validity of the address part of an IPv6 literal (no zone).  A trailing
part containing '.' must be a valid (strict) IPv4 literal; it is replaced by
two dummy one-digit hex groups, matching the source's `'%x'` rewrite. -/
def v6_addr_valid (l : List Char) : Bool :=
  let parts := split_sep ':' l
  if decide (parts.length < 3) then false
  else
    let lastPart := parts.getLastD []
    if lastPart.contains '.' then
      match parse_v4 lastPart with
      | some _ => v6_parts_valid (parts.dropLast ++ [['f'], ['f']])
      | none => false
    else v6_parts_valid parts

/-- Model of `IPv6Address.__init__`: an optional `%zone` suffix — the zone must be
nonempty and must not itself contain '%'. -/
def is_v6_str (l : List Char) : Bool :=
  match l.findIdx? (fun c => c = '%') with
  | none => v6_addr_valid l
  | some i =>
    let addr := l.take i
    let zone := l.drop (i + 1)
    !zone.isEmpty && !zone.contains '%' && v6_addr_valid addr

/-- A parsed address value.  The IPv6 payload is not carried: the program
only ever tests membership of an address in the three private `IPv4Network`
blocks, and `IPv4Network.__contains__` returns `False` for any object of a
different IP version. -/
inductive IpAddr where
  | v4 (octets : Nat × Nat × Nat × Nat)
  | v6
deriving DecidableEq

/-- Model of `ipaddress.ip_address` on a string: IPv4 first, then IPv6, else raise
(`none`). -/
def py_ip_address (s : String) : Option IpAddr :=
  match parse_v4 s.data with
  | some t => some (.v4 t)
  | none => if is_v6_str s.data then some .v6 else none

/-! ## The network classifier (`is_internal`, `is_valid_ip`) -/

def v4_to_nat : Nat × Nat × Nat × Nat → Nat
  | (a, b, c, d) => a * 2 ^ 24 + b * 2 ^ 16 + c * 2 ^ 8 + d

/-- Model of `internal_networks`: the three private IPv4 ranges, as (base, prefixlen). -/
def internal_networks : List ((Nat × Nat × Nat × Nat) × Nat) :=
  [((10, 0, 0, 0), 8), ((172, 16, 0, 0), 12), ((192, 168, 0, 0), 16)]

/-- Model of `ip_obj in network` for an `IPv4Network`: the two addresses agree on the
high `prefixlen` bits. -/
def in_network (t : Nat × Nat × Nat × Nat) (net : (Nat × Nat × Nat × Nat) × Nat) : Bool :=
  decide (v4_to_nat t / 2 ^ (32 - net.2) = v4_to_nat net.1 / 2 ^ (32 - net.2))

/-- Model of `is_internal(ip)`: parse, then test membership in each internal network;
a `ValueError` (including `ip_address(None)`, since `str(None)` is not an IP
literal) is caught and yields `False` — fail closed. -/
def is_internal (ip : Option String) : Bool :=
  match ip with
  | none => false
  | some s =>
    match py_ip_address s with
    | some (.v4 t) => internal_networks.any (in_network t)
    | some .v6 => false
    | none => false

/-- Model of `is_valid_ip(ip)`: `ip_address` succeeds.  A missing JSON field arrives
as `None`, which fails to parse. -/
def is_valid_ip (ip : Option String) : Bool :=
  match ip with
  | none => false
  | some s => (py_ip_address s).isSome

/-! ## The ledger and `update_usage` -/

/-- The in-memory `usage` dict: insertion-ordered association list
`ip ↦ [cumulative, last_timestamp]`. -/
abbrev Usage : Type := List (String × ℚ × String)

/-- Model of `update_usage(usage, ip, data_amount, timestamp)`: accumulate into an
existing key (keeping its position, as a dict does), else insert at the end. -/
def update_usage : Usage → String → ℚ → String → Usage
  | [], ip, d, t => [(ip, d, t)]
  | (k, b, ts) :: rest, ip, d, t =>
    if k = ip then (k, b + d, t) :: rest
    else (k, b, ts) :: update_usage rest ip d t

/-- Dict lookup `usage[ip]` / `ip in usage`. -/
def lookup_usage : Usage → String → Option (ℚ × String)
  | [], _ => none
  | (k, b, t) :: rest, ip => if k = ip then some (b, t) else lookup_usage rest ip

/-- Dict assignment `usage[ip] = v`: overwrite in place, else append.
(`load_usage` uses assignment, `update_usage` uses accumulation.) -/
def set_entry : Usage → String → ℚ × String → Usage
  | [], ip, v => [(ip, v.1, v.2)]
  | (k, b, t) :: rest, ip, v =>
    if k = ip then (k, v.1, v.2) :: rest
    else (k, b, t) :: set_entry rest ip v

/-! ## Flow records and `parse_zeek_log` -/

/-- The fields `parse_zeek_log` reads from one JSON object; `record.get`
yields `None` (`none`) for a missing field. -/
structure ZeekRecord where
  orig_h : Option String
  resp_h : Option String
  orig_bytes : Option ℚ
  resp_bytes : Option ℚ
  ts : Option String
deriving DecidableEq

/-- One line of a log file, as seen by `json.loads`. -/
inductive Line where
  /-- `json.loads` raises `JSONDecodeError`: caught, line skipped. -/
  | malformed
  /-- a line that is valid JSON but not an object (e.g. `5`, `[1]`, `null`):
  `record.get` raises `AttributeError`, which `parse_zeek_log` does not
  catch, so the whole parse aborts. -/
  | non_object
  /-- a JSON object, reduced to the fields the program reads. -/
  | record (r : ZeekRecord)
deriving DecidableEq

def is_malformed : Line → Bool
  | .malformed => true
  | _ => false

/-- Model of `record.get("orig_bytes", 0) + record.get("resp_bytes", 0)`. -/
def data_amount (r : ZeekRecord) : ℚ :=
  r.orig_bytes.getD 0 + r.resp_bytes.getD 0

/-- The body of `parse_zeek_log`'s per-record work (lines 101–112): validate
both endpoint addresses, attribute to whichever endpoint is internal when the
other is external, else leave the dict alone.  A record with a missing
endpoint falls to the catch-all: `is_valid_ip(None)` is `False`, so the
source skips it through the same `else` path. -/
def process_record (usage : Usage) (r : ZeekRecord) : Usage :=
  match r.orig_h, r.resp_h with
  | some o, some rp =>
    if is_valid_ip (some o) && is_valid_ip (some rp) then
      if is_internal (some o) && !is_internal (some rp) then
        update_usage usage o (data_amount r) (r.ts.getD "")
      else if is_internal (some rp) && !is_internal (some o) then
        update_usage usage rp (data_amount r) (r.ts.getD "")
      else usage
    else usage
  | _, _ => usage

/-- Model of `parse_zeek_log(file_path, usage)`, over the file's lines.  A decode
failure is caught and the loop continues; an `AttributeError` from a
non-object line propagates (`.error`). -/
def parse_zeek_log : List Line → Usage → Except Unit Usage
  | [], u => .ok u
  | .malformed :: rest, u => parse_zeek_log rest u
  | .non_object :: _, _ => .error ()
  | .record r :: rest, u => parse_zeek_log rest (process_record u r)

/-! ## The persisted CSV: `float` parsing and rendering, `load_usage`, `save_usage` -/

def is_ws_char (c : Char) : Bool :=
  c = ' ' || c = '\t' || c = '\n' || c = '\r' || decide (c.toNat = 11) || decide (c.toNat = 12)

/-- Python `float(s)`, restricted to finite decimal literals:
`[ws] [sign] (digits [. digits] | . digits) [(e|E) [sign] digits] [ws]`.
(`inf`/`nan` spellings and `_` digit separators are not modelled; the store
never writes them.) -/
def parse_float (s : String) : Option ℚ :=
  let l := (s.data.dropWhile is_ws_char).reverse.dropWhile is_ws_char |>.reverse
  let (sgn, l1) : ℚ × List Char :=
    match l with
    | '-' :: rest => (-1, rest)
    | '+' :: rest => (1, rest)
    | rest => (1, rest)
  let intDigits := l1.takeWhile is_digit_char
  let l2 := l1.dropWhile is_digit_char
  let (fracDigits, l3) : List Char × List Char :=
    match l2 with
    | '.' :: rest => (rest.takeWhile is_digit_char, rest.dropWhile is_digit_char)
    | rest => ([], rest)
  if intDigits.length + fracDigits.length = 0 then none
  else
    let mant : ℚ :=
      ((intDigits ++ fracDigits).foldl (fun acc c => 10 * acc + (digit_val c : ℚ)) 0) /
        10 ^ fracDigits.length
    match l3 with
    | [] => some (sgn * mant)
    | e :: rest =>
      if e = 'e' || e = 'E' then
        let (esgn, r1) : Bool × List Char :=
          match rest with
          | '-' :: r => (true, r)
          | '+' :: r => (false, r)
          | r => (false, r)
        if r1 ≠ [] ∧ r1.all is_digit_char then
          let ev := r1.foldl (fun acc c => 10 * acc + digit_val c) 0
          some (sgn * mant * (if esgn then (10 ^ ev : ℚ)⁻¹ else 10 ^ ev))
        else none
      else none

/-- Decimal digits of the fractional part of a nonnegative rational below 1,
by repeated multiplication by 10 (with fuel; every value the store writes
terminates well before the fuel runs out). -/
def frac_digit_chars : Nat → ℚ → List Char
  | 0, _ => []
  | fuel + 1, q =>
    if q = 0 then []
    else
      let q10 := q * 10
      let d := q10.num.toNat / q10.den
      Char.ofNat (48 + d) :: frac_digit_chars fuel (q10 - (d : ℚ))

/-- Model of `str(x)` for the (finite, nonnegative in practice) float written by
`csv.writer`: integer part, '.', fractional digits — `str(1.0) = "1.0"`. -/
def repr_float (q : ℚ) : String :=
  let a := if q < 0 then -q else q
  let ipart := a.num.toNat / a.den
  let fr := a - (ipart : ℚ)
  let frs := frac_digit_chars 64 fr
  (if q < 0 then "-" else "") ++ Nat.repr ipart ++ "." ++
    (if frs.isEmpty then "0" else String.mk frs)

/-- Why `load_usage` aborts: sequence unpacking of a row without exactly
three fields raises `ValueError`, and so does `float()` on a bad field. -/
inductive LoadErr where
  /-- `ip, total_data, last_time = row` fails. -/
  | unpack
  /-- `float(total_data)` fails. -/
  | bad_float
deriving DecidableEq

/-- The row loop of `load_usage` (lines 62–65): each row is unpacked into
three fields, the middle one converted with `float`, and assigned into the
dict.  No exception is caught, so the first bad row aborts the load. -/
def load_usage_rows : List (List String) → Usage → Except LoadErr Usage
  | [], u => .ok u
  | row :: rest, u =>
    match row with
    | [ip, total_data, last_time] =>
      match parse_float total_data with
      | some q => load_usage_rows rest (set_entry u ip (q, last_time))
      | none => .error .bad_float
    | _ => .error .unpack

/-- Model of `save_usage`'s row serialization (lines 79–82): one row per dict entry,
the cumulative amount divided by `1024 ** 3` and rendered by `csv.writer`
via `str`. -/
def save_usage_rows (usage : Usage) : List (List String) :=
  usage.map (fun e => [e.1, repr_float (e.2.1 / (1024 ^ 3 : ℚ)), e.2.2])

instance {ε α : Type _} [DecidableEq ε] [DecidableEq α] : DecidableEq (Except ε α) := fun a b =>
  match a, b with
  | .error e, .error f =>
    if h : e = f then isTrue (congrArg Except.error h)
    else isFalse (fun hh => h (Except.error.inj hh))
  | .ok x, .ok y =>
    if h : x = y then isTrue (congrArg Except.ok h)
    else isFalse (fun hh => h (Except.ok.inj hh))
  | .error _, .ok _ => isFalse (fun hh => Except.noConfusion hh)
  | .ok _, .error _ => isFalse (fun hh => Except.noConfusion hh)

/-! ## Paths and the filesystem

Paths are character lists; the filesystem an association list from paths to
files.  A file carries its mtime (only the month is ever read, but the year
is carried so that "the year is not compared" is expressible) and a typed
payload. -/

abbrev Path := List Char

/-- Python `str.endswith(s)`. -/
def ends_with (l s : List Char) : Bool := l.drop (l.length - s.length) == s

/-- Model of `os.path.basename`-like: the part of the path after the last '/'. -/
def base_name (p : Path) : Path := (p.reverse.takeWhile (fun c => c != '/')).reverse

/-- Model of `os.path.splitext(p)`: split at the last '.' of the final component,
provided some non-dot character of that component precedes it (so a leading
"hidden file" dot never starts an extension). -/
def py_splitext (p : Path) : Path × Path :=
  match (base_name p).reverse.findIdx? (fun c => c == '.') with
  | none => (p, [])
  | some i =>
    if ((base_name p).take ((base_name p).length - (i + 1))).any (fun c => c != '.') then
      (p.take (p.length - (i + 1)), p.drop (p.length - (i + 1)))
    else (p, [])

/-- The output path of `extract_gzip` (lines 129–133): drop the final
extension; append ".log" unless the result already ends with it. -/
def extract_gzip_name (p : Path) : Path :=
  if ends_with (py_splitext p).1 (".log".data) then (py_splitext p).1
  else (py_splitext p).1 ++ ".log".data

/-- A timestamp, to the granularity the program reads (`datetime.month`,
with the year carried along). -/
structure Date where
  year : Nat
  month : Nat
deriving DecidableEq

inductive FileData where
  /-- the persisted CSV, as the rows `csv.reader` would yield. -/
  | rows (rows : List (List String))
  /-- a plain text log, as the lines `json.loads` is offered. -/
  | text (lines : List Line)
  /-- a gzip archive: decompressed payload, or `.error` if corrupt. -/
  | gz (content : Except Unit (List Line))
deriving DecidableEq

structure FsFile where
  mtime : Date
  data : FileData
deriving DecidableEq

structure FS where
  files : List (Path × FsFile)
deriving DecidableEq

def lookup_file : List (Path × FsFile) → Path → Option FsFile
  | [], _ => none
  | (q, f) :: rest, p => if q = p then some f else lookup_file rest p

def get_file (fs : FS) (p : Path) : Option FsFile := lookup_file fs.files p

def set_file : List (Path × FsFile) → Path → FsFile → List (Path × FsFile)
  | [], p, f => [(p, f)]
  | (q, g) :: rest, p, f =>
    if q = p then (q, f) :: rest else (q, g) :: set_file rest p f

/-- Model of `open(p, "w"/"wb")` + write: truncate/create. -/
def write_file (fs : FS) (p : Path) (f : FsFile) : FS := ⟨set_file fs.files p f⟩

/-- Model of `os.remove`. -/
def remove_file (fs : FS) (p : Path) : FS := ⟨fs.files.filter (fun kv => kv.1 != p)⟩

/-- Model of `csv_file = os.path.join(base_directory, "data_usage.csv")` (the base
directory, `os.getcwd()` in the source, is a parameter here; it is assumed
not to end in '/', so `os.path.join` inserts one). -/
def csv_file (base : Path) : Path := base ++ ('/' :: "data_usage.csv".data)

/-! ## The ledger store over the filesystem -/

/-- Model of `reset_monthly_usage` (lines 46–54): delete the persisted CSV iff it
exists and the month number of its mtime differs from the current month
number.  Only `.month` is read on either side. -/
def reset_monthly_usage (fs : FS) (base : Path) (now : Date) : FS :=
  match get_file fs (csv_file base) with
  | some f =>
    if f.mtime.month ≠ now.month then remove_file fs (csv_file base) else fs
  | none => fs

/-- Model of `load_usage` (lines 57–68): no file → empty dict; otherwise run the row
loop (which aborts on the first bad row — nothing is caught).  A non-CSV
payload at the CSV path is outside the program's own I/O and is mapped to
the unpack failure. -/
def load_usage (fs : FS) (base : Path) : Except LoadErr Usage :=
  match get_file fs (csv_file base) with
  | none => .ok []
  | some f =>
    match f.data with
    | .rows rows => load_usage_rows rows []
    | _ => .error .unpack

/-- Model of `save_usage` (lines 71–82): overwrite the CSV wholesale with one row per
entry; the file's mtime becomes the current time. -/
def save_usage (fs : FS) (base : Path) (now : Date) (usage : Usage) : FS :=
  write_file fs (csv_file base) ⟨now, .rows (save_usage_rows usage)⟩

/-! ## Decompression -/

/-- Model of `extract_gzip` (lines 128–140).  `gzip.open` only fails eagerly when the
archive is missing; otherwise the output file is created (truncated) first,
and a corrupt or non-gzip stream then fails inside `copyfileobj`, leaving an
empty output behind.  The archive itself is never removed. -/
def extract_gzip (fs : FS) (now : Date) (p : Path) : FS × Except Unit Path :=
  let out := extract_gzip_name p
  match get_file fs p with
  | none => (fs, .error ())
  | some f =>
    match f.data with
    | .gz (.ok lines) => (write_file fs out ⟨now, .text lines⟩, .ok out)
    | .gz (.error _) => (write_file fs out ⟨now, .text []⟩, .error ())
    | _ => (write_file fs out ⟨now, .text []⟩, .error ())

/-- Model of `extract_gzip_files_in_parallel` (lines 143–158).  The thread pool is
embedded deterministically: each submitted task's outcome is a function of
the filesystem, the futures are drained in submission order (the source
iterates the `future_to_file` dict, i.e. insertion order), a failure is
caught per future and its archive merely excluded from the result list. -/
def extract_gzip_files_in_parallel (fs : FS) (now : Date) : List Path → FS × List Path
  | [] => (fs, [])
  | p :: ps =>
    let step := extract_gzip fs now p
    let rest := extract_gzip_files_in_parallel step.1 now ps
    match step.2 with
    | .ok out => (rest.1, out :: rest.2)
    | .error _ => (rest.1, rest.2)

/-! ## Discovery and the run -/

def log_prefixes : List (List Char) := ["conn".data, "dns".data, "http".data, "ssl".data]

def matches_log_name (b : Path) : Bool :=
  log_prefixes.any (fun pre => pre.isPrefixOf b) && ends_with b (".log".data)

def matches_gz_name (b : Path) : Bool :=
  log_prefixes.any (fun pre => pre.isPrefixOf b) && ends_with b (".log.gz".data)

/-- Model of `find_log_files` (lines 161–181): the two name-convention filters over
the files on disk.  (The `os.walk` depth bound is a discovery concern the
spec declares out of scope; the flat filesystem model applies the name
filters to every file.  No ".log" name also ends in ".log.gz", so the
source's `elif` needs no extra guard.) -/
def find_log_files (fs : FS) : List Path × List Path :=
  (fs.files.filterMap (fun kv =>
      if matches_log_name (base_name kv.1) then some kv.1 else none),
   fs.files.filterMap (fun kv =>
      if matches_gz_name (base_name kv.1) then some kv.1 else none))

/-- One file's loop of `parse_zeek_log` (lines 95–116), reading from disk.
A missing file aborts (uncaught `FileNotFoundError`); a non-log payload at a
log path decodes as no valid JSON object lines. -/
def parse_zeek_log_file (fs : FS) (p : Path) (u : Usage) : Except Unit Usage :=
  match get_file fs p with
  | none => .error ()
  | some f =>
    match f.data with
    | .text lines => parse_zeek_log lines u
    | _ => .ok u

def parse_files (fs : FS) : List Path → Usage → Except Unit Usage
  | [], u => .ok u
  | p :: ps, u =>
    match parse_zeek_log_file fs p u with
    | .ok u2 => parse_files fs ps u2
    | .error e => .error e

/-- Model of `parse_logs` (lines 184–192): discover, extract the archives, then parse
all plain sources (discovered ++ freshly extracted) strictly sequentially. -/
def parse_logs (fs : FS) (now : Date) (u : Usage) : FS × Except Unit Usage :=
  let found := find_log_files fs
  let ex := extract_gzip_files_in_parallel fs now found.2
  (ex.1, parse_files ex.1 (found.1 ++ ex.2) u)

inductive RunError where
  | load_failed (e : LoadErr)
  | parse_failed
deriving DecidableEq

/-- Model of `monitor_zeek_logs` (lines 195–199): rollover check → load → parse →
save.  An uncaught exception in load or parse ends the run with an error and
without reaching `save_usage`. -/
def monitor_zeek_logs (fs : FS) (base : Path) (now : Date) : FS × Option RunError :=
  let fs1 := reset_monthly_usage fs base now
  match load_usage fs1 base with
  | .error e => (fs1, some (.load_failed e))
  | .ok usage =>
    match parse_logs fs1 now usage with
    | (fs2, .error _) => (fs2, some .parse_failed)
    | (fs2, .ok usage2) => (save_usage fs2 base now usage2, none)

/-! ## Definitions used by the statements -/

/-- A CSV row on which `load_usage`'s row loop raises: wrong arity for the
unpacking, or a middle field `float()` rejects. -/
def bad_row (row : List String) : Prop :=
  row.length ≠ 3 ∨ ∃ ip total time, row = [ip, total, time] ∧ parse_float total = none

/-- The key (if any) a record's bytes are charged to: the internal endpoint,
when both addresses are valid and exactly one is internal — read off the
branch structure of `process_record`. -/
def attributed_key (r : ZeekRecord) : Option String :=
  match r.orig_h, r.resp_h with
  | some o, some rp =>
    if is_valid_ip (some o) && is_valid_ip (some rp) then
      if is_internal (some o) && !is_internal (some rp) then some o
      else if is_internal (some rp) && !is_internal (some o) then some rp
      else none
    else none
  | _, _ => none

/-- Whether decompressing the archive at `p` succeeds against filesystem
`fs`. -/
def extract_ok (fs : FS) (now : Date) (p : Path) : Bool :=
  match (extract_gzip fs now p).2 with
  | .ok _ => true
  | .error _ => false

/-- The naming contract as the spec words it: the archive path with the
".gz" suffix stripped, with ".log" appended iff the stripped name does not
already end in ".log".  (Spec-side definition, compared against
`extract_gzip_name` in the C9 theorem.) -/
def spec_plain_name (p : Path) : Path :=
  let stripped := p.take (p.length - 3)
  if ends_with stripped (".log".data) then stripped else stripped ++ ".log".data

/-! ## Sanity checks of the embedding against Python behaviour -/

example : is_valid_ip (some "10.1.1.1") = true := by decide
example : is_valid_ip (some "93.184.216.34") = true := by decide
example : is_valid_ip (some "256.1.1.1") = false := by decide
example : is_valid_ip (some "01.1.1.1") = false := by decide
example : is_valid_ip (some "2001:db8::1") = true := by decide
example : is_valid_ip (some "2001:0db8:0000:0000:0000:0000:0000:0001") = true := by decide
example : is_valid_ip (some "::ffff:10.1.1.1") = true := by decide
example : is_valid_ip (some "fe80::1%eth0") = true := by decide
example : is_valid_ip (some ":::") = false := by decide
example : is_valid_ip (some "1::2::3") = false := by decide
example : is_valid_ip (some "None") = false := by decide
example : is_internal (some "10.1.1.1") = true := by decide
example : is_internal (some "172.16.5.5") = true := by decide
example : is_internal (some "172.32.0.1") = false := by decide
example : is_internal (some "192.168.0.9") = true := by decide
example : is_internal (some "93.184.216.34") = false := by decide
example : is_internal (some "2001:db8::1") = false := by decide

unseal Rat.add in
example :
    process_record [] ⟨some "10.1.1.1", some "93.184.216.34", some 500, some 1500,
      some "2024-05-01T00:00:00"⟩ = [("10.1.1.1", 2000, "2024-05-01T00:00:00")] := by
  decide

unseal Rat.add in
example :
    process_record [] ⟨some "8.8.8.8", some "192.168.0.9", some 10, none, some "t"⟩
      = [("192.168.0.9", 10, "t")] := by decide

example :
    process_record [("x", 1, "s")] ⟨some "10.0.0.1", some "10.0.0.2", some 10, some 2, some "t"⟩
      = [("x", 1, "s")] := by decide

example :
    process_record [] ⟨some "10.0.0.1", some "not-an-ip", some 10, some 2, some "t"⟩ = [] := by
  decide

unseal Rat.add Rat.mul Rat.inv Rat.sub in
example : repr_float 1 = "1.0" := by decide

unseal Rat.add Rat.mul Rat.inv Rat.sub in
example : repr_float (5 / 2) = "2.5" := by decide

unseal Rat.add Rat.mul Rat.inv Rat.sub in
example : parse_float "1.0" = some 1 := by decide

unseal Rat.add Rat.mul Rat.inv Rat.sub in
example : parse_float " -2.5e1" = some (-25) := by decide

unseal Rat.add Rat.mul Rat.inv Rat.sub in
example : parse_float "1e-2" = some (1 / 100) := by decide

example : parse_float "abc" = none := by decide
example : parse_float "" = none := by decide

unseal Rat.add Rat.mul Rat.inv Rat.sub in
example : parse_float "1.0.0" = none := by decide

example : extract_gzip_name "logs/conn.log.gz".data = "logs/conn.log".data := by decide
example : extract_gzip_name "dns.gz".data = "dns.log".data := by decide

/-! ## Helper lemmas: the usage dict -/

theorem lookup_update_self (u : Usage) (ip : String) (d : ℚ) (t : String) :
    lookup_usage (update_usage u ip d t) ip
      = some ((lookup_usage u ip).elim d (fun pr => pr.1 + d), t) := by
  induction u with
  | nil => simp [update_usage, lookup_usage]
  | cons e rest ih =>
    obtain ⟨k, b, ts⟩ := e
    by_cases h : k = ip
    · subst h
      simp [update_usage, lookup_usage]
    · simp [update_usage, lookup_usage, h, ih]

theorem lookup_update_other (u : Usage) (ip k : String) (d : ℚ) (t : String)
    (h : k ≠ ip) : lookup_usage (update_usage u ip d t) k = lookup_usage u k := by
  induction u with
  | nil =>
    simp only [update_usage, lookup_usage, if_neg (fun hh : ip = k => h hh.symm)]
  | cons e rest ih =>
    obtain ⟨k', b, ts⟩ := e
    by_cases h' : k' = ip
    · subst h'
      have hk : ¬ k' = k := fun hh => h hh.symm
      simp [update_usage, lookup_usage, hk]
    · simp only [update_usage, if_neg h']
      by_cases h'' : k' = k
      · subst h''
        simp [lookup_usage]
      · simp [lookup_usage, h'', ih]

theorem update_usage_absent (u : Usage) (ip : String) (d : ℚ) (t : String)
    (h : lookup_usage u ip = none) : update_usage u ip d t = u ++ [(ip, d, t)] := by
  induction u with
  | nil => simp [update_usage]
  | cons e rest ih =>
    obtain ⟨k, b, ts⟩ := e
    by_cases h' : k = ip
    · subst h'
      simp [lookup_usage] at h
    · simp [lookup_usage, h'] at h
      simp [update_usage, h', ih h]

theorem load_usage_rows_error_of_bad (rows : List (List String)) (acc : Usage)
    (h : ∃ row ∈ rows, bad_row row) : ∃ e, load_usage_rows rows acc = .error e := by
  induction rows generalizing acc with
  | nil =>
    obtain ⟨row, hm, _⟩ := h
    simp at hm
  | cons row rest ih =>
    obtain ⟨row', hm, hbad⟩ := h
    rcases List.mem_cons.mp hm with rfl | hm'
    · rcases row' with _ | ⟨a, _ | ⟨b, _ | ⟨c, _ | ⟨d, tl⟩⟩⟩⟩
      · exact ⟨.unpack, rfl⟩
      · exact ⟨.unpack, rfl⟩
      · exact ⟨.unpack, rfl⟩
      · rcases hbad with h3 | ⟨ip, tt, tm, heq, hpf⟩
        · simp at h3
        · simp only [List.cons.injEq, and_true] at heq
          obtain ⟨rfl, rfl, rfl⟩ := heq
          exact ⟨.bad_float, by simp [load_usage_rows, hpf]⟩
      · exact ⟨.unpack, rfl⟩
    · rcases row with _ | ⟨a, _ | ⟨b, _ | ⟨c, _ | ⟨d, tl⟩⟩⟩⟩
      · exact ⟨.unpack, rfl⟩
      · exact ⟨.unpack, rfl⟩
      · exact ⟨.unpack, rfl⟩
      · cases hp : parse_float b with
        | none => exact ⟨.bad_float, by simp [load_usage_rows, hp]⟩
        | some q =>
          obtain ⟨e, he⟩ := ih (set_entry acc a (q, c)) ⟨row', hm', hbad⟩
          exact ⟨e, by simp [load_usage_rows, hp, he]⟩
      · exact ⟨.unpack, rfl⟩

theorem lookup_file_remove (l : List (Path × FsFile)) (p : Path) :
    lookup_file (l.filter (fun kv => kv.1 != p)) p = none := by
  induction l with
  | nil => rfl
  | cons kv rest ih =>
    by_cases h : kv.1 = p
    · simp [List.filter_cons, h, ih]
    · simp [List.filter_cons, h, lookup_file, ih]

theorem get_file_remove_self (fs : FS) (p : Path) :
    get_file (remove_file fs p) p = none :=
  lookup_file_remove fs.files p

/-! ## Helper lemmas: strict IPv4 parsing accepts only the canonical form -/

theorem is_digit_char_bounds {c : Char} (h : is_digit_char c = true) :
    48 ≤ c.toNat ∧ c.toNat ≤ 57 := by
  simpa [is_digit_char] using h

theorem char_eq_of_toNat_eq {a b : Char} (h : a.toNat = b.toNat) : a = b :=
  Char.eq_of_val_eq (UInt32.eq_of_toBitVec_eq (BitVec.eq_of_toNat_eq h))

theorem digit_char_inj {a b : Char} (ha : is_digit_char a = true)
    (hb : is_digit_char b = true) (h : digit_val a = digit_val b) : a = b := by
  obtain ⟨ha1, ha2⟩ := is_digit_char_bounds ha
  obtain ⟨hb1, hb2⟩ := is_digit_char_bounds hb
  apply char_eq_of_toNat_eq
  unfold digit_val at h
  omega

theorem digit_val_pos {a : Char} (ha : is_digit_char a = true) (h : a ≠ '0') :
    1 ≤ digit_val a := by
  obtain ⟨ha1, ha2⟩ := is_digit_char_bounds ha
  have h48 : a.toNat ≠ 48 := fun hh => h (char_eq_of_toNat_eq (by rw [hh]; decide))
  unfold digit_val
  omega

theorem digit_val_le {a : Char} (ha : is_digit_char a = true) : digit_val a ≤ 9 := by
  obtain ⟨h1, h2⟩ := is_digit_char_bounds ha
  unfold digit_val
  omega

theorem parse_octet_facts (l : List Char) (v : Nat) (h : parse_octet l = some v) :
    (∃ a, l = [a] ∧ is_digit_char a = true ∧ v = digit_val a)
  ∨ (∃ a b, l = [a, b] ∧ is_digit_char a = true ∧ is_digit_char b = true ∧ a ≠ '0'
      ∧ v = 10 * digit_val a + digit_val b)
  ∨ (∃ a b c, l = [a, b, c] ∧ is_digit_char a = true ∧ is_digit_char b = true
      ∧ is_digit_char c = true ∧ a ≠ '0'
      ∧ v = 100 * digit_val a + 10 * digit_val b + digit_val c) := by
  match l with
  | [] => simp [parse_octet] at h
  | [a] =>
    simp only [parse_octet] at h
    split at h
    · exact Or.inl ⟨a, rfl, by assumption, (Option.some.inj h).symm⟩
    · simp at h
  | [a, b] =>
    simp only [parse_octet] at h
    split at h
    · next hc =>
      simp only [Bool.and_eq_true, decide_eq_true_eq] at hc
      exact Or.inr (Or.inl ⟨a, b, rfl, hc.1.1, hc.1.2, hc.2, (Option.some.inj h).symm⟩)
    · simp at h
  | [a, b, c] =>
    simp only [parse_octet] at h
    split at h
    · next hc =>
      simp only [Bool.and_eq_true, decide_eq_true_eq] at hc
      exact Or.inr (Or.inr ⟨a, b, c, rfl, hc.1.1.1.1, hc.1.1.1.2, hc.1.1.2, hc.1.2,
        (Option.some.inj h).symm⟩)
    · simp at h
  | a :: b :: c :: d :: tl => simp [parse_octet] at h

theorem parse_octet_inj {l1 l2 : List Char} {v : Nat}
    (h1 : parse_octet l1 = some v) (h2 : parse_octet l2 = some v) : l1 = l2 := by
  rcases parse_octet_facts l1 v h1 with
      ⟨a, rfl, ha, hv⟩ | ⟨a, b, rfl, ha, hb, ha0, hv⟩ |
      ⟨a, b, c, rfl, ha, hb, hc, ha0, hv⟩ <;>
    rcases parse_octet_facts l2 v h2 with
      ⟨x, rfl, hx, hw⟩ | ⟨x, y, rfl, hx, hy, hx0, hw⟩ |
      ⟨x, y, z, rfl, hx, hy, hz, hx0, hw⟩
  · rw [digit_char_inj ha hx (by omega)]
  · exfalso
    have := digit_val_le ha
    have := digit_val_pos hx hx0
    have := digit_val_le hy
    omega
  · exfalso
    have := digit_val_le ha
    have := digit_val_pos hx hx0
    have := digit_val_le hy
    have := digit_val_le hz
    omega
  · exfalso
    have := digit_val_le hx
    have := digit_val_pos ha ha0
    have := digit_val_le hb
    omega
  · have e1 : digit_val a = digit_val x := by
      have := digit_val_le hb
      have := digit_val_le hy
      omega
    have e2 : digit_val b = digit_val y := by omega
    rw [digit_char_inj ha hx e1, digit_char_inj hb hy e2]
  · exfalso
    have := digit_val_le ha
    have := digit_val_le hb
    have := digit_val_pos hx hx0
    have := digit_val_le hy
    have := digit_val_le hz
    omega
  · exfalso
    have := digit_val_le hx
    have := digit_val_pos ha ha0
    have := digit_val_le hb
    have := digit_val_le hc
    omega
  · exfalso
    have := digit_val_le hx
    have := digit_val_le hy
    have := digit_val_pos ha ha0
    have := digit_val_le hb
    have := digit_val_le hc
    omega
  · have e1 : digit_val a = digit_val x := by
      have := digit_val_le hb
      have := digit_val_le hc
      have := digit_val_le hy
      have := digit_val_le hz
      omega
    have e2 : digit_val b = digit_val y := by
      have := digit_val_le hc
      have := digit_val_le hz
      omega
    have e3 : digit_val c = digit_val z := by omega
    rw [digit_char_inj ha hx e1, digit_char_inj hb hy e2, digit_char_inj hc hz e3]

theorem split_sep_ne_nil (sep : Char) (l : List Char) : split_sep sep l ≠ [] := by
  cases l with
  | nil => simp [split_sep]
  | cons c cs =>
    simp only [split_sep]
    by_cases h : c = sep
    · simp [h]
    · simp only [if_neg h]
      cases split_sep sep cs <;> simp

theorem join_split (sep : Char) (l : List Char) :
    join_sep sep (split_sep sep l) = l := by
  induction l with
  | nil => rfl
  | cons c cs ih =>
    obtain ⟨q, qs, hq⟩ : ∃ q qs, split_sep sep cs = q :: qs := by
      cases h : split_sep sep cs with
      | nil => exact absurd h (split_sep_ne_nil sep cs)
      | cons q qs => exact ⟨q, qs, rfl⟩
    by_cases h : c = sep
    · subst h
      simp only [split_sep, if_pos rfl, hq]
      show c :: join_sep c (q :: qs) = c :: cs
      rw [← hq, ih]
    · simp only [split_sep, if_neg h, hq]
      cases qs with
      | nil =>
        show c :: q = c :: cs
        have hcs : join_sep sep (split_sep sep cs) = cs := ih
        rw [hq] at hcs
        rw [show q = cs from hcs]
      | cons q2 qs2 =>
        have hcs : join_sep sep (split_sep sep cs) = cs := ih
        rw [hq] at hcs
        show c :: (q ++ sep :: join_sep sep (q2 :: qs2)) = c :: cs
        rw [show q ++ sep :: join_sep sep (q2 :: qs2) = cs from hcs]

theorem parse_v4_facts (l : List Char) (t : Nat × Nat × Nat × Nat)
    (h : parse_v4 l = some t) :
    ∃ p1 p2 p3 p4, split_sep '.' l = [p1, p2, p3, p4]
      ∧ parse_octet p1 = some t.1 ∧ parse_octet p2 = some t.2.1
      ∧ parse_octet p3 = some t.2.2.1 ∧ parse_octet p4 = some t.2.2.2 := by
  unfold parse_v4 at h
  split at h
  · next p1 p2 p3 p4 heq =>
    split at h
    · next a b c d ha hb hc hd =>
      obtain rfl := Option.some.inj h
      exact ⟨p1, p2, p3, p4, heq, ha, hb, hc, hd⟩
    · simp at h
  · simp at h

theorem parse_v4_inj {l1 l2 : List Char} {t : Nat × Nat × Nat × Nat}
    (h1 : parse_v4 l1 = some t) (h2 : parse_v4 l2 = some t) : l1 = l2 := by
  obtain ⟨p1, p2, p3, p4, hs1, ha1, hb1, hc1, hd1⟩ := parse_v4_facts l1 t h1
  obtain ⟨q1, q2, q3, q4, hs2, ha2, hb2, hc2, hd2⟩ := parse_v4_facts l2 t h2
  have j1 := join_split '.' l1
  have j2 := join_split '.' l2
  rw [hs1] at j1
  rw [hs2] at j2
  rw [← j1, ← j2, parse_octet_inj ha1 ha2, parse_octet_inj hb1 hb2,
    parse_octet_inj hc1 hc2, parse_octet_inj hd1 hd2]

theorem py_ip_address_v4 {s : String} {t : Nat × Nat × Nat × Nat}
    (h : py_ip_address s = some (.v4 t)) : parse_v4 s.data = some t := by
  unfold py_ip_address at h
  split at h
  · next t' heq =>
    have hv := Option.some.inj h
    obtain rfl : t' = t := by injection hv
    exact heq
  · split at h
    · exact absurd (Option.some.inj h) (by simp)
    · simp at h

theorem py_ip_inj {s1 s2 : String} {t : Nat × Nat × Nat × Nat}
    (h1 : py_ip_address s1 = some (.v4 t)) (h2 : py_ip_address s2 = some (.v4 t)) :
    s1 = s2 := by
  have h := parse_v4_inj (py_ip_address_v4 h1) (py_ip_address_v4 h2)
  cases s1
  cases s2
  exact congrArg String.mk h

theorem is_internal_some_v4 {s : String} (h : is_internal (some s) = true) :
    ∃ t, py_ip_address s = some (.v4 t) := by
  simp only [is_internal] at h
  split at h
  · next t heq => exact ⟨t, heq⟩
  · exact absurd h (by simp)
  · exact absurd h (by simp)

theorem process_record_attributed (u : Usage) (r : ZeekRecord) (s : String)
    (h : attributed_key r = some s) :
    process_record u r = update_usage u s (data_amount r) (r.ts.getD "")
  ∧ is_internal (some s) = true := by
  cases ho : r.orig_h with
  | none => simp [attributed_key, ho] at h
  | some o =>
    cases hrp : r.resp_h with
    | none => simp [attributed_key, ho, hrp] at h
    | some rp =>
      simp only [attributed_key, ho, hrp] at h
      simp only [process_record, ho, hrp]
      by_cases h1 : (is_valid_ip (some o) && is_valid_ip (some rp)) = true
      · rw [if_pos h1] at h ⊢
        by_cases h2 : (is_internal (some o) && !is_internal (some rp)) = true
        · rw [if_pos h2] at h ⊢
          simp only [Bool.and_eq_true] at h2
          obtain rfl : o = s := Option.some.inj h
          exact ⟨rfl, h2.1⟩
        · rw [if_neg h2] at h ⊢
          by_cases h3 : (is_internal (some rp) && !is_internal (some o)) = true
          · rw [if_pos h3] at h ⊢
            simp only [Bool.and_eq_true] at h3
            obtain rfl : rp = s := Option.some.inj h
            exact ⟨rfl, h3.1⟩
          · rw [if_neg h3] at h
            simp at h
      · rw [if_neg h1] at h
        simp at h

/-! ## Helper lemmas: paths, suffixes, `splitext` -/

theorem ends_with_iff (l s : List Char) : ends_with l s = true ↔ ∃ t, l = t ++ s := by
  unfold ends_with
  constructor
  · intro h
    refine ⟨l.take (l.length - s.length), ?_⟩
    have hd : l.drop (l.length - s.length) = s := by simpa using h
    conv_lhs => rw [← List.take_append_drop (l.length - s.length) l]
    rw [hd]
  · rintro ⟨t, rfl⟩
    have hlen : (t ++ s).length - s.length = t.length := by
      rw [List.length_append]
      omega
    rw [hlen, List.drop_left]
    simp

theorem ends_with_unique {l s1 s2 : List Char} (h1 : ends_with l s1 = true)
    (h2 : ends_with l s2 = true) (hl : s1.length = s2.length) : s1 = s2 := by
  obtain ⟨t1, rfl⟩ := (ends_with_iff _ _).mp h1
  obtain ⟨t2, he⟩ := (ends_with_iff _ _).mp h2
  have ht : t1.length = t2.length := by
    have := congrArg List.length he
    simp only [List.length_append] at this
    omega
  exact (List.append_inj he ht).2

theorem ends_with_trans {a b c : List Char} (h1 : ends_with a b = true)
    (h2 : ends_with b c = true) : ends_with a c = true := by
  obtain ⟨t1, rfl⟩ := (ends_with_iff _ _).mp h1
  obtain ⟨t2, rfl⟩ := (ends_with_iff _ _).mp h2
  exact (ends_with_iff _ _).mpr ⟨t1 ++ t2, by rw [List.append_assoc]⟩

theorem ends_with_append (t s : List Char) : ends_with (t ++ s) s = true :=
  (ends_with_iff _ _).mpr ⟨t, rfl⟩

theorem take_of_append_eq {l t s : List Char} (h : l = t ++ s) :
    l.take (l.length - s.length) = t := by
  subst h
  have hlen : (t ++ s).length - s.length = t.length := by
    rw [List.length_append]
    omega
  rw [hlen, List.take_left]

theorem takeWhile_append_all {α : Type} (pred : α → Bool) (l1 l2 : List α)
    (h : ∀ a ∈ l1, pred a = true) :
    (l1 ++ l2).takeWhile pred = l1 ++ l2.takeWhile pred := by
  induction l1 with
  | nil => rfl
  | cons a l1 ih =>
    have ha : pred a = true := h a (by simp)
    simp only [List.cons_append, List.takeWhile_cons, ha, if_true]
    rw [ih (fun x hx => h x (by simp [hx]))]

theorem base_name_suffix (p : Path) : ∃ t, p = t ++ base_name p := by
  refine ⟨(p.reverse.dropWhile (fun c => c != '/')).reverse, ?_⟩
  unfold base_name
  conv_lhs => rw [← List.reverse_reverse p,
    ← List.takeWhile_append_dropWhile (fun c => c != '/') p.reverse]
  rw [List.reverse_append]

theorem ends_with_base_name {p s : Path} (hs : s.all (fun c => c != '/') = true)
    (h : ends_with p s = true) : ends_with (base_name p) s = true := by
  obtain ⟨t, rfl⟩ := (ends_with_iff _ _).mp h
  unfold base_name
  rw [List.reverse_append]
  rw [takeWhile_append_all _ s.reverse t.reverse
    (fun a ha => by
      simp only [List.all_eq_true] at hs
      exact hs a (List.mem_reverse.mp ha))]
  rw [List.reverse_append, List.reverse_reverse]
  exact ends_with_append _ s

theorem ends_with_of_base_name {p s : Path} (h : ends_with (base_name p) s = true) :
    ends_with p s = true := by
  obtain ⟨t, ht⟩ := base_name_suffix p
  exact ends_with_trans ((ends_with_iff _ _).mpr ⟨t, ht⟩) h

theorem py_splitext_strip_gz (p : Path)
    (hb : ends_with (base_name p) (".gz".data) = true)
    (h2 : ((base_name p).take ((base_name p).length - 3)).any (fun c => c != '.') = true) :
    py_splitext p = (p.take (p.length - 3), p.drop (p.length - 3)) := by
  obtain ⟨t, hbn⟩ := (ends_with_iff _ _).mp hb
  have hrev : (base_name p).reverse = 'z' :: 'g' :: '.' :: t.reverse := by
    rw [hbn, List.reverse_append]
    rfl
  have hidx : (base_name p).reverse.findIdx? (fun c => c == '.') = some 2 := by
    rw [hrev]
    rfl
  unfold py_splitext
  rw [hidx]
  dsimp only
  have h2' : ((base_name p).take ((base_name p).length - (2 + 1))).any
      (fun c => c != '.') = true := h2
  rw [if_pos h2']

example : py_splitext "a/conn.log.gz".data = ("a/conn.log".data, ".gz".data) := by decide

theorem extract_gzip_name_of_log_gz {p : Path}
    (hb : ends_with (base_name p) (".log.gz".data) = true) :
    extract_gzip_name p = p.take (p.length - 3)
  ∧ ends_with (extract_gzip_name p) (".log".data) = true := by
  have hgz : ends_with (base_name p) (".gz".data) = true :=
    ends_with_trans hb (by decide)
  obtain ⟨t, hbn⟩ := (ends_with_iff _ _).mp hb
  have hb7 : base_name p = (t ++ ".log".data) ++ ".gz".data := by
    rw [hbn]
    simp
  have hany : ((base_name p).take ((base_name p).length - 3)).any (fun c => c != '.') = true := by
    have htk := take_of_append_eq hb7
    rw [show ((".gz".data : List Char)).length = 3 from rfl] at htk
    rw [htk]
    have hdotlog : ((".log".data : List Char).any (fun c => c != '.')) = true := by decide
    simp [List.any_append, hdotlog]
  have hsplit := py_splitext_strip_gz p hgz hany
  obtain ⟨d, hd⟩ := base_name_suffix p
  have hp7 : p = (d ++ (t ++ ".log".data)) ++ ".gz".data := by
    rw [hd, hb7]
    simp
  have htake : p.take (p.length - 3) = d ++ (t ++ ".log".data) := by
    have htk := take_of_append_eq hp7
    rw [show ((".gz".data : List Char)).length = 3 from rfl] at htk
    exact htk
  have hlog : ends_with (p.take (p.length - 3)) (".log".data) = true := by
    rw [htake, ← List.append_assoc]
    exact ends_with_append _ _
  constructor
  · unfold extract_gzip_name
    rw [hsplit]
    dsimp only
    rw [if_pos hlog]
  · unfold extract_gzip_name
    rw [hsplit]
    dsimp only
    rw [if_pos hlog]
    exact hlog

theorem csv_file_ends_csv (base : Path) :
    ends_with (csv_file base) (".csv".data) = true := by
  unfold csv_file
  exact (ends_with_iff _ _).mpr ⟨base ++ ('/' :: "data_usage".data), by simp⟩

theorem log_path_ne_csv_path {x : Path} (base : Path)
    (hx : ends_with x (".log".data) = true) : x ≠ csv_file base := by
  intro h
  subst h
  have := ends_with_unique hx (csv_file_ends_csv base) (by decide)
  simp at this

/-! ## Helper lemmas: the filesystem and the decompression stage -/

theorem ends_with_mono {l s1 s2 : List Char} (h1 : ends_with l s1 = true)
    (h2 : ends_with l s2 = true) (hle : s1.length ≤ s2.length) :
    ends_with s2 s1 = true := by
  obtain ⟨t1, rfl⟩ := (ends_with_iff _ _).mp h1
  obtain ⟨t2, he⟩ := (ends_with_iff _ _).mp h2
  have hlen : t1.length = t2.length + (s2.length - s1.length) := by
    have := congrArg List.length he
    simp only [List.length_append] at this
    omega
  apply (ends_with_iff _ _).mpr
  refine ⟨s2.take (s2.length - s1.length), ?_⟩
  have hd1 : (t1 ++ s1).drop t1.length = s1 := List.drop_left t1 s1
  rw [he, hlen, ← List.drop_drop, List.drop_left] at hd1
  conv_lhs => rw [← List.take_append_drop (s2.length - s1.length) s2]
  rw [hd1]

theorem ends_gz_ne_ends_log {x y : Path} (hx : ends_with x (".gz".data) = true)
    (hy : ends_with y (".log".data) = true) : x ≠ y := by
  intro h
  subst h
  have := ends_with_mono hx hy (by decide)
  simp [ends_with] at this

theorem lookup_set_file (l : List (Path × FsFile)) (q : Path) (f : FsFile) (p : Path) :
    lookup_file (set_file l q f) p = if q = p then some f else lookup_file l p := by
  induction l with
  | nil => simp [set_file, lookup_file]
  | cons kv rest ih =>
    obtain ⟨k, g⟩ := kv
    by_cases h : k = q
    · subst h
      simp only [set_file, if_pos rfl, lookup_file]
      by_cases h2 : k = p <;> simp [h2]
    · simp only [set_file, if_neg h, lookup_file, ih]
      by_cases h2 : k = p
      · subst h2
        have hq : ¬ (q = k) := fun hh => h hh.symm
        rw [if_pos rfl, if_neg hq, if_pos rfl]
      · rw [if_neg h2]
        by_cases h3 : q = p
        · rw [if_pos h3, if_pos h3]
        · rw [if_neg h3, if_neg h3, if_neg h2]

theorem get_file_write (fs : FS) (q : Path) (f : FsFile) (p : Path) :
    get_file (write_file fs q f) p = if q = p then some f else get_file fs p :=
  lookup_set_file fs.files q f p

theorem extract_gzip_preserves {fs : FS} {now : Date} {p q : Path}
    (h : q ≠ extract_gzip_name p) :
    get_file (extract_gzip fs now p).1 q = get_file fs q := by
  have hw : ∀ f, get_file (write_file fs (extract_gzip_name p) f) q = get_file fs q := by
    intro f
    rw [get_file_write, if_neg (fun hh => h hh.symm)]
  unfold extract_gzip
  cases hg : get_file fs p with
  | none => rfl
  | some f =>
    obtain ⟨mt, fd⟩ := f
    cases fd with
    | rows r => exact hw _
    | text lines => exact hw _
    | gz c =>
      cases c with
      | ok lines => exact hw _
      | error e => exact hw _

theorem extract_gzip_ok_out {fs : FS} {now : Date} {p : Path} {fs1 : FS} {out : Path}
    (h : extract_gzip fs now p = (fs1, .ok out)) : out = extract_gzip_name p := by
  unfold extract_gzip at h
  cases hg : get_file fs p with
  | none =>
    rw [hg] at h
    simp at h
  | some f =>
    obtain ⟨mt, fd⟩ := f
    rw [hg] at h
    cases fd with
    | rows r => simp at h
    | text lines => simp at h
    | gz c =>
      cases c with
      | ok lines =>
        simp only [Prod.mk.injEq] at h
        exact (Except.ok.inj h.2).symm
      | error e => simp at h

theorem extract_ok_congr {fs1 fs2 : FS} {now : Date} {p : Path}
    (h : get_file fs1 p = get_file fs2 p) :
    extract_ok fs1 now p = extract_ok fs2 now p := by
  unfold extract_ok extract_gzip
  rw [h]
  cases hg : get_file fs2 p with
  | none => rfl
  | some f =>
    obtain ⟨mt, fd⟩ := f
    cases fd with
    | rows r => rfl
    | text lines => rfl
    | gz c => cases c <;> rfl

theorem extract_par_preserves {now : Date} (ps : List Path) (fs : FS) {q : Path}
    (hq : ∀ p ∈ ps, q ≠ extract_gzip_name p) :
    get_file (extract_gzip_files_in_parallel fs now ps).1 q = get_file fs q := by
  induction ps generalizing fs with
  | nil => rfl
  | cons p ps ih =>
    have hstep : get_file (extract_gzip fs now p).1 q = get_file fs q :=
      extract_gzip_preserves (hq p (by simp))
    have htail : ∀ p' ∈ ps, q ≠ extract_gzip_name p' := fun p' hp' => hq p' (by simp [hp'])
    simp only [extract_gzip_files_in_parallel]
    cases hs : extract_gzip fs now p with
    | mk fs1 r =>
      rw [hs] at hstep
      cases r with
      | ok out => simpa using (ih fs1 htail).trans hstep
      | error e => simpa using (ih fs1 htail).trans hstep

theorem extract_par_result {now : Date} (ps : List Path) (fs : FS)
    (h : ∀ p ∈ ps, ends_with p (".gz".data) = true
        ∧ ends_with (extract_gzip_name p) (".log".data) = true) :
    (extract_gzip_files_in_parallel fs now ps).2
      = (ps.filter (fun p => extract_ok fs now p)).map extract_gzip_name := by
  induction ps generalizing fs with
  | nil => rfl
  | cons p ps ih =>
    have hh := h p (by simp)
    have htail : ∀ p' ∈ ps, ends_with p' (".gz".data) = true
        ∧ ends_with (extract_gzip_name p') (".log".data) = true :=
      fun p' hp' => h p' (by simp [hp'])
    simp only [extract_gzip_files_in_parallel, List.filter_cons]
    cases hs : extract_gzip fs now p with
    | mk fs1 r =>
      have hpres : ∀ p' ∈ ps, get_file fs1 p' = get_file fs p' := by
        intro p' hp'
        have hne : p' ≠ extract_gzip_name p :=
          ends_gz_ne_ends_log (htail p' hp').1 hh.2
        have := @extract_gzip_preserves fs now p p' hne
        rw [hs] at this
        exact this
      have hfilter : ps.filter (fun p' => extract_ok fs1 now p')
          = ps.filter (fun p' => extract_ok fs now p') := by
        apply List.filter_congr
        intro p' hp'
        exact extract_ok_congr (hpres p' hp')
      cases r with
      | ok out =>
        dsimp only
        have hout : out = extract_gzip_name p := extract_gzip_ok_out hs
        have hok2 : extract_ok fs now p = true := by
          unfold extract_ok
          rw [hs]
        rw [if_pos hok2, hout, ih fs1 htail, hfilter]
        rfl
      | error e =>
        dsimp only
        have hok2 : extract_ok fs now p = false := by
          unfold extract_ok
          rw [hs]
        rw [if_neg (by simp [hok2]), ih fs1 htail, hfilter]

theorem mem_find_gz {fs : FS} {p : Path} (h : p ∈ (find_log_files fs).2) :
    ends_with (base_name p) (".log.gz".data) = true := by
  unfold find_log_files at h
  simp only [List.mem_filterMap] at h
  obtain ⟨kv, _, hkv⟩ := h
  by_cases hm : matches_gz_name (base_name kv.1) = true
  · rw [if_pos hm] at hkv
    obtain rfl := Option.some.inj hkv
    unfold matches_gz_name at hm
    simp only [Bool.and_eq_true] at hm
    exact hm.2
  · rw [if_neg hm] at hkv
    simp at hkv

theorem parse_logs_preserves_csv (fs : FS) (base : Path) (now : Date) (u : Usage) :
    get_file (parse_logs fs now u).1 (csv_file base) = get_file fs (csv_file base) := by
  show get_file (extract_gzip_files_in_parallel fs now (find_log_files fs).2).1 (csv_file base)
      = get_file fs (csv_file base)
  apply extract_par_preserves
  intro p hp
  have hlog := (extract_gzip_name_of_log_gz (mem_find_gz hp)).2
  exact (log_path_ne_csv_path base hlog).symm

/-! ## The claims -/

/-- C5 — Merge semantics and order-sensitivity: merging a delta for a host
already present adds the delta to that host's cumulative bytes and
overwrites (does not max) its `last_timestamp`; for an absent host a new
entry with the delta and timestamp is inserted; merging `[A:100@t1, A:50@t2]`
in either order yields cumulative 150, with `last_timestamp` that of
whichever record was merged last. -/
theorem c5_merge_semantics :
    (∀ (u : Usage) (ip : String) (d t_amount : ℚ) (t ts0 : String),
        lookup_usage u ip = some (t_amount, ts0) →
        lookup_usage (update_usage u ip d t) ip = some (t_amount + d, t))
  ∧ (∀ (u : Usage) (ip : String) (d : ℚ) (t : String),
        lookup_usage u ip = none → update_usage u ip d t = u ++ [(ip, d, t)])
  ∧ (∀ t1 t2 : String,
        update_usage (update_usage [] "A" 100 t1) "A" 50 t2 = [("A", 150, t2)]
      ∧ update_usage (update_usage [] "A" 50 t2) "A" 100 t1 = [("A", 150, t1)]) := by
  refine ⟨?_, ?_, ?_⟩
  · intro u ip d b t ts0 hl
    rw [lookup_update_self, hl]
    rfl
  · intro u ip d t h
    exact update_usage_absent u ip d t h
  · intro t1 t2
    constructor <;> norm_num [update_usage]

theorem c5_witness :
    lookup_usage (update_usage [("A", 3, "s")] "A" 4 "t") "A" = some (3 + 4, "t") :=
  c5_merge_semantics.1 [("A", 3, "s")] "A" 4 3 "t" "s" rfl

/-- C3 — Parse resilience: a line that fails JSON decoding is skipped and
parsing continues with the next line; removing the malformed lines from a
file does not change the outcome of `parse_zeek_log` at all, so a malformed
line neither aborts the remaining lines nor turns the parse of the file into
a failure. -/
theorem c3_malformed_lines_skipped (lines : List Line) (u : Usage) :
    parse_zeek_log (lines.filter (fun l => !is_malformed l)) u = parse_zeek_log lines u := by
  induction lines generalizing u with
  | nil => rfl
  | cons l rest ih =>
    cases l with
    | malformed =>
      show parse_zeek_log (List.filter (fun l => !is_malformed l) rest) u
          = parse_zeek_log rest u
      exact ih u
    | non_object => rfl
    | record r =>
      show parse_zeek_log (List.filter (fun l => !is_malformed l) rest) (process_record u r)
          = parse_zeek_log rest (process_record u r)
      exact ih _

/-- C10 — `load_usage` is not tolerant of malformed rows: a persisted file
with a row that does not have exactly three fields, or whose second field
`float()` rejects, makes the row loop raise an uncaught exception, and a run
whose rollover check leaves such a file in place aborts at the load step. -/
theorem c10_load_usage_intolerant :
    (∀ (rows : List (List String)) (acc : Usage),
        (∃ row ∈ rows, bad_row row) → ∃ e, load_usage_rows rows acc = .error e)
  ∧ (∀ (fs : FS) (base : Path) (now : Date) (f : FsFile) (rows : List (List String)),
        get_file fs (csv_file base) = some f → f.data = .rows rows →
        f.mtime.month = now.month → (∃ row ∈ rows, bad_row row) →
        (monitor_zeek_logs fs base now).2 ≠ none) := by
  refine ⟨load_usage_rows_error_of_bad, ?_⟩
  intro fs base now f rows hget hdata hmonth hbad
  have hreset : reset_monthly_usage fs base now = fs := by
    unfold reset_monthly_usage
    rw [hget]
    simp [hmonth]
  obtain ⟨e, he⟩ := load_usage_rows_error_of_bad rows [] hbad
  have hload : load_usage fs base = .error e := by
    obtain ⟨mt, fd⟩ := f
    have hfd : fd = .rows rows := hdata
    subst hfd
    simp only [load_usage, hget]
    exact he
  simp only [monitor_zeek_logs]
  rw [hreset, hload]
  simp

theorem c10_witness :
    ∃ e, load_usage_rows [["10.0.0.1", "oops", "t"]] [] = Except.error e :=
  c10_load_usage_intolerant.1 [["10.0.0.1", "oops", "t"]] []
    ⟨["10.0.0.1", "oops", "t"], by simp, Or.inr ⟨"10.0.0.1", "oops", "t", rfl, by decide⟩⟩

/-- C4 — Monthly rollover: the pre-load reset deletes the persisted file iff
it exists and the month number of its mtime differs from the current month
number (the year plays no role), after which loading yields an empty ledger;
when no file exists or the month numbers agree, the filesystem is untouched. -/
theorem c4_monthly_rollover (fs : FS) (base : Path) (now : Date) :
    (∀ f, get_file fs (csv_file base) = some f → f.mtime.month ≠ now.month →
        reset_monthly_usage fs base now = remove_file fs (csv_file base)
      ∧ load_usage (reset_monthly_usage fs base now) base = .ok [])
  ∧ (∀ f, get_file fs (csv_file base) = some f → f.mtime.month = now.month →
        reset_monthly_usage fs base now = fs)
  ∧ (get_file fs (csv_file base) = none → reset_monthly_usage fs base now = fs)
  ∧ (∀ y1 y2, reset_monthly_usage fs base ⟨y1, now.month⟩
        = reset_monthly_usage fs base ⟨y2, now.month⟩) := by
  refine ⟨?_, ?_, ?_, ?_⟩
  · intro f hget hne
    have h1 : reset_monthly_usage fs base now = remove_file fs (csv_file base) := by
      unfold reset_monthly_usage
      rw [hget]
      simp [hne]
    refine ⟨h1, ?_⟩
    rw [h1]
    unfold load_usage
    rw [get_file_remove_self]
  · intro f hget heq
    unfold reset_monthly_usage
    rw [hget]
    simp [heq]
  · intro h
    unfold reset_monthly_usage
    rw [h]
  · intro y1 y2
    cases hget : get_file fs (csv_file base) <;> simp [reset_monthly_usage, hget]

theorem c4_witness :
    load_usage
        (reset_monthly_usage
          ⟨[(csv_file "/w".data, ⟨⟨2024, 4⟩, .rows [["10.0.0.1", "1.0", "t"]]⟩)]⟩
          "/w".data ⟨2024, 5⟩)
        "/w".data = .ok [] :=
  ((c4_monthly_rollover ⟨[(csv_file "/w".data, ⟨⟨2024, 4⟩, .rows [["10.0.0.1", "1.0", "t"]]⟩)]⟩
      "/w".data ⟨2024, 5⟩).1 ⟨⟨2024, 4⟩, .rows [["10.0.0.1", "1.0", "t"]]⟩ rfl (by decide)).2

/-- C2 — Classification and accrual: for a parsed record with both endpoint
addresses valid and exactly one internal, the sum of the origin and
responder byte counts (each defaulting to 0 when absent) is added exactly
once to exactly one usage entry, keyed by the internal endpoint (all other
keys unchanged); a record with zero or two internal endpoints, or with
either address invalid or missing, leaves the dict unchanged. -/
theorem c2_attribution (u : Usage) (r : ZeekRecord) :
    (∀ o rp, r.orig_h = some o → r.resp_h = some rp →
        is_valid_ip r.orig_h = true → is_valid_ip r.resp_h = true →
        is_internal r.orig_h ≠ is_internal r.resp_h →
        lookup_usage (process_record u r) (if is_internal (some o) then o else rp)
            = some ((lookup_usage u (if is_internal (some o) then o else rp)).elim
                (data_amount r) (fun pr => pr.1 + data_amount r), r.ts.getD "")
          ∧ ∀ k, k ≠ (if is_internal (some o) then o else rp) →
              lookup_usage (process_record u r) k = lookup_usage u k)
  ∧ (¬ (is_valid_ip r.orig_h = true ∧ is_valid_ip r.resp_h = true
        ∧ is_internal r.orig_h ≠ is_internal r.resp_h) →
      process_record u r = u) := by
  constructor
  · intro o rp ho hrp hv1 hv2 hint
    rw [ho] at hv1 hint
    rw [hrp] at hv2 hint
    have hak : attributed_key r = some (if is_internal (some o) then o else rp) := by
      cases hio : is_internal (some o) with
      | true =>
        have hirp : is_internal (some rp) = false := by
          cases hh : is_internal (some rp)
          · rfl
          · exact absurd (hio.trans hh.symm) hint
        simp [attributed_key, ho, hrp, hv1, hv2, hio, hirp]
      | false =>
        have hirp : is_internal (some rp) = true := by
          cases hh : is_internal (some rp)
          · exact absurd (hio.trans hh.symm) hint
          · rfl
        simp [attributed_key, ho, hrp, hv1, hv2, hio, hirp]
    obtain ⟨hproc, _⟩ := process_record_attributed u r _ hak
    rw [hproc]
    exact ⟨lookup_update_self u _ (data_amount r) (r.ts.getD ""),
      fun k hk => lookup_update_other u _ k (data_amount r) (r.ts.getD "") hk⟩
  · intro hneg
    cases ho : r.orig_h with
    | none => simp [process_record, ho]
    | some o =>
      cases hrp : r.resp_h with
      | none => simp [process_record, ho, hrp]
      | some rp =>
        simp only [process_record, ho, hrp]
        by_cases hv : (is_valid_ip (some o) && is_valid_ip (some rp)) = true
        · have heq : is_internal (some o) = is_internal (some rp) := by
            by_contra hne
            simp only [Bool.and_eq_true] at hv
            exact hneg ⟨by rw [ho]; exact hv.1, by rw [hrp]; exact hv.2,
              by rw [ho, hrp]; exact hne⟩
          have hb1 : ¬ ((is_internal (some o) && !is_internal (some rp)) = true) := by
            rw [heq]
            cases is_internal (some rp) <;> simp
          have hb2 : ¬ ((is_internal (some rp) && !is_internal (some o)) = true) := by
            rw [heq]
            cases is_internal (some rp) <;> simp
          rw [if_pos hv, if_neg hb1, if_neg hb2]
        · rw [if_neg hv]

theorem c2_witness :
    lookup_usage
        (process_record [] ⟨some "10.1.1.1", some "93.184.216.34", some 500, some 1500,
          some "2024-05-01T00:00:00"⟩) "10.1.1.1"
      = some (500 + 1500, "2024-05-01T00:00:00") := by
  have h := ((c2_attribution [] ⟨some "10.1.1.1", some "93.184.216.34", some 500, some 1500,
      some "2024-05-01T00:00:00"⟩).1 "10.1.1.1" "93.184.216.34" rfl rfl (by decide) (by decide)
      (by decide)).1
  exact h

/-- C6 — Canonical host keying: whenever two records are attributed (each has
exactly one valid internal endpoint) and their internal endpoint strings
denote the same parsed IP address, those strings are equal — Python's strict
IPv4 parser accepts only the canonical spelling, and only IPv4 addresses can
be internal — so both byte amounts accumulate into the one usage entry under
that key. -/
theorem c6_canonical_keying (u : Usage) (r1 r2 : ZeekRecord) (s1 s2 : String)
    (a : IpAddr) (h1 : attributed_key r1 = some s1) (h2 : attributed_key r2 = some s2)
    (e1 : py_ip_address s1 = some a) (e2 : py_ip_address s2 = some a) :
    s1 = s2
  ∧ process_record (process_record u r1) r2
      = update_usage (update_usage u s1 (data_amount r1) (r1.ts.getD ""))
          s1 (data_amount r2) (r2.ts.getD "") := by
  obtain ⟨hp1, hi1⟩ := process_record_attributed u r1 s1 h1
  obtain ⟨t, hv4⟩ := is_internal_some_v4 hi1
  have ha : a = .v4 t := by
    rw [e1] at hv4
    exact Option.some.inj hv4
  subst ha
  have hs : s1 = s2 := py_ip_inj hv4 e2
  refine ⟨hs, ?_⟩
  obtain ⟨hp2, _⟩ := process_record_attributed (process_record u r1) r2 s2 h2
  rw [hp2, hp1, ← hs]

theorem c6_witness :
    process_record
        (process_record [] ⟨some "10.1.1.1", some "93.184.216.34", some 500, some 1500,
          some "t1"⟩)
        ⟨some "8.8.8.8", some "10.1.1.1", some 40, some 60, some "t2"⟩
      = update_usage (update_usage [] "10.1.1.1" (500 + 1500) "t1")
          "10.1.1.1" (40 + 60) "t2" :=
  (c6_canonical_keying []
      ⟨some "10.1.1.1", some "93.184.216.34", some 500, some 1500, some "t1"⟩
      ⟨some "8.8.8.8", some "10.1.1.1", some 40, some 60, some "t2"⟩
      "10.1.1.1" "10.1.1.1" (.v4 (10, 1, 1, 1))
      (by decide) (by decide) (by decide) (by decide)).2

unseal Rat.add Rat.mul Rat.inv Rat.sub in
/-- C1 — The save/load round trip is not stable: `save_usage` divides the
cumulative amount by `1024 ** 3` when writing, but `load_usage` stores the
parsed gibibyte figure back without multiplying by `2 ** 30`, so one
save/load cycle shrinks a ledger entry of `2^30` (one GiB in bytes) to `1`;
the reloaded total differs from the original by a factor of `2^30`, far
beyond any floating-point rounding. -/
theorem c1_roundtrip_shrinks :
    load_usage_rows (save_usage_rows [("10.0.0.1", ((2 : ℚ) ^ 30), "2024-05-01T00:00:00")]) []
        = .ok [("10.0.0.1", 1, "2024-05-01T00:00:00")]
    ∧ ((2 : ℚ) ^ 30) ≠ 1 := by
  constructor
  · decide
  · norm_num

/-- C7 — Decompression failure isolation: for a batch of archives named by
the pipeline's convention, the stage returns exactly the per-archive
successes, in order: each archive's outcome is decided against the initial
filesystem alone (one task's failure or success cannot make another fail),
failed archives are merely excluded from the result list, and every
successful archive's produced plain path appears. -/
theorem c7_extraction_isolation (fs : FS) (now : Date) (ps : List Path)
    (h : ∀ p ∈ ps, ends_with (base_name p) (".log.gz".data) = true) :
    (extract_gzip_files_in_parallel fs now ps).2
      = (ps.filter (fun p => extract_ok fs now p)).map extract_gzip_name := by
  apply extract_par_result
  intro p hp
  have h1 := h p hp
  exact ⟨ends_with_of_base_name (ends_with_trans h1 (by decide)),
    (extract_gzip_name_of_log_gz h1).2⟩

theorem c7_witness :
    (extract_gzip_files_in_parallel
        ⟨[("d/conn.log.gz".data, ⟨⟨2024, 5⟩, .gz (.ok [])⟩),
          ("d/dns.log.gz".data, ⟨⟨2024, 5⟩, .gz (.error ())⟩),
          ("d/http.log.gz".data, ⟨⟨2024, 5⟩, .gz (.ok [])⟩),
          ("d/ssl.log.gz".data, ⟨⟨2024, 5⟩, .gz (.ok [])⟩),
          ("d/conn2.log.gz".data, ⟨⟨2024, 5⟩, .gz (.ok [])⟩)]⟩ ⟨2024, 5⟩
        ["d/conn.log.gz".data, "d/dns.log.gz".data, "d/http.log.gz".data,
          "d/ssl.log.gz".data, "d/conn2.log.gz".data]).2
      = (["d/conn.log.gz".data, "d/dns.log.gz".data, "d/http.log.gz".data,
          "d/ssl.log.gz".data, "d/conn2.log.gz".data].filter
            (fun p => extract_ok
              ⟨[("d/conn.log.gz".data, ⟨⟨2024, 5⟩, .gz (.ok [])⟩),
                ("d/dns.log.gz".data, ⟨⟨2024, 5⟩, .gz (.error ())⟩),
                ("d/http.log.gz".data, ⟨⟨2024, 5⟩, .gz (.ok [])⟩),
                ("d/ssl.log.gz".data, ⟨⟨2024, 5⟩, .gz (.ok [])⟩),
                ("d/conn2.log.gz".data, ⟨⟨2024, 5⟩, .gz (.ok [])⟩)]⟩ ⟨2024, 5⟩ p)).map
          extract_gzip_name :=
  c7_extraction_isolation _ ⟨2024, 5⟩ _ (by decide)

/-- C8 — Persistence frame: the parse stage (discovery, decompression and
the sequential parse loop) never modifies the persisted CSV file, and a run
that terminates with an error (at load or at parse) leaves the CSV exactly
as the rollover check left it — only the terminal `save_usage` step writes
it. -/
theorem c8_persist_only_at_end (fs : FS) (base : Path) (now : Date) :
    (∀ u, get_file (parse_logs fs now u).1 (csv_file base) = get_file fs (csv_file base))
  ∧ ((monitor_zeek_logs fs base now).2 ≠ none →
      get_file (monitor_zeek_logs fs base now).1 (csv_file base)
        = get_file (reset_monthly_usage fs base now) (csv_file base)) := by
  refine ⟨fun u => parse_logs_preserves_csv fs base now u, ?_⟩
  intro hne
  cases hl : load_usage (reset_monthly_usage fs base now) base with
  | error e =>
    simp only [monitor_zeek_logs]
    rw [hl]
  | ok usage =>
    cases hp : parse_logs (reset_monthly_usage fs base now) now usage with
    | mk fs2 res =>
      cases res with
      | error e =>
        simp only [monitor_zeek_logs]
        rw [hl]
        dsimp only
        rw [hp]
        have := parse_logs_preserves_csv (reset_monthly_usage fs base now) base now usage
        rw [hp] at this
        exact this
      | ok u2 =>
        exfalso
        apply hne
        simp only [monitor_zeek_logs]
        rw [hl]
        dsimp only
        rw [hp]

theorem c8_witness :
    get_file
        (monitor_zeek_logs ⟨[(csv_file "/w".data, ⟨⟨2024, 5⟩, .rows [["h", "x"]]⟩)]⟩
          "/w".data ⟨2024, 5⟩).1 (csv_file "/w".data)
      = get_file
          (reset_monthly_usage ⟨[(csv_file "/w".data, ⟨⟨2024, 5⟩, .rows [["h", "x"]]⟩)]⟩
            "/w".data ⟨2024, 5⟩) (csv_file "/w".data) :=
  (c8_persist_only_at_end ⟨[(csv_file "/w".data, ⟨⟨2024, 5⟩, .rows [["h", "x"]]⟩)]⟩
      "/w".data ⟨2024, 5⟩).2 (by decide)

/-- C9 — Decompression naming contract: for an archive path carrying a real
".gz" suffix, the produced plain path is the archive path with that suffix
stripped, with ".log" appended iff the stripped name does not already end in
".log" (this is `spec_plain_name`, the contract as the spec words it); on
success exactly that path is returned and holds the decompressed payload,
and the archive file itself is never deleted. -/
theorem c9_decompress_naming (fs : FS) (now : Date) (p : Path)
    (h1 : ends_with p (".gz".data) = true)
    (h2 : ((base_name p).take ((base_name p).length - 3)).any (fun c => c != '.') = true) :
    p = p.take (p.length - 3) ++ ".gz".data
  ∧ extract_gzip_name p = spec_plain_name p
  ∧ get_file (extract_gzip fs now p).1 p = get_file fs p
  ∧ (∀ out, (extract_gzip fs now p).2 = .ok out → out = extract_gzip_name p)
  ∧ (∀ lines mt, get_file fs p = some ⟨mt, .gz (.ok lines)⟩ →
      (extract_gzip fs now p).2 = .ok (extract_gzip_name p)
      ∧ get_file (extract_gzip fs now p).1 (extract_gzip_name p)
          = some ⟨now, .text lines⟩) := by
  have hbgz : ends_with (base_name p) (".gz".data) = true :=
    ends_with_base_name (by decide) h1
  have hsplit := py_splitext_strip_gz p hbgz h2
  obtain ⟨t, hdecomp⟩ := (ends_with_iff _ _).mp h1
  have htake : p.take (p.length - 3) = t := by
    have htk := take_of_append_eq hdecomp
    rw [show ((".gz".data : List Char)).length = 3 from rfl] at htk
    exact htk
  have hname : extract_gzip_name p = spec_plain_name p := by
    unfold extract_gzip_name spec_plain_name
    rw [hsplit]
  have hlen3 : 3 ≤ p.length := by
    have hl := congrArg List.length hdecomp
    simp at hl
    omega
  have hne : p ≠ extract_gzip_name p := by
    intro hcontra
    have hlen := congrArg List.length hcontra
    unfold extract_gzip_name at hlen
    rw [hsplit] at hlen
    dsimp only at hlen
    by_cases hc : ends_with (p.take (p.length - 3)) (".log".data) = true
    · rw [if_pos hc] at hlen
      rw [List.length_take, Nat.min_eq_left (Nat.sub_le _ _)] at hlen
      omega
    · rw [if_neg hc] at hlen
      rw [List.length_append, List.length_take, Nat.min_eq_left (Nat.sub_le _ _),
        show ((".log".data : List Char)).length = 4 from rfl] at hlen
      omega
  refine ⟨by rw [htake]; exact hdecomp, hname, extract_gzip_preserves hne, ?_, ?_⟩
  · intro out hout
    cases hs : extract_gzip fs now p with
    | mk fs1 r =>
      rw [hs] at hout
      dsimp only at hout
      subst hout
      exact extract_gzip_ok_out hs
  · intro lines mt hget
    unfold extract_gzip
    rw [hget]
    exact ⟨rfl, by rw [get_file_write, if_pos rfl]⟩

theorem c9_witness :
    extract_gzip_name "d/conn.log.gz".data = spec_plain_name "d/conn.log.gz".data :=
  (c9_decompress_naming ⟨[]⟩ ⟨2024, 5⟩ "d/conn.log.gz".data (by decide) (by decide)).2.1

end ZeekQuota
